import Mathlib

/-!
Shallow embedding of the `fahrenheit` single-threaded async runtime
(`src/lib.rs`): the `EventLoop` with its read/write interest registries
(`BTreeMap<RawFd, Waker>`), task counter, wait queue
(`BTreeMap<TaskId, Task>`) and run queue (`VecDeque<Wakeup>`), together
with the scheduler operations `add_read_interest`, `remove_read_interest`,
`add_write_interest`, `remove_write_interest`, `wake`, `next_task`,
`do_spawn` and the body of `EventLoop::run` (the `select` call, the
readiness-to-wakeup translation, the run-queue drain and the termination
check).

Modelling conventions:
* `RawFd` (a C `int` used only as an ordered map key) is embedded as `Int`.
* A `Waker` built from `Token(idx)` is fully characterised by the task
  index it wakes, so wakers are embedded as that index (`Nat`).
  `wake_by_ref` on such a waker enqueues `Wakeup { index: idx, waker }`.
* `BTreeMap` is embedded as a key-sorted association list with
  insert / remove / contains / lookup and in-key-order iteration.
* A `FutureObj` is opaque to the loop: each `poll` performs some reactor
  calls through the thread-local `REACTOR` (registering or removing
  descriptor interest, or waking a task, as the adapter layer in
  `async_tcp_listener.rs` / `async_tcp_stream.rs` does) and returns
  `Ready` or `Pending`.  A future is therefore embedded as the finite
  script of its remaining polls, each entry holding the reactor actions
  that poll performs and the poll result it returns.
-/

namespace Fahrenheit

abbrev TaskId := Nat

abbrev Fd := Int

/-- A waker is identified by the index of the `Token` it was created from. -/
abbrev Waker := Nat

/-- `Wakeup` notification: index of the future in the wait queue, plus waker. -/
structure Wakeup where
  index : Nat
  waker : Waker
deriving Repr, DecidableEq

/-- A reactor call a future can perform during one `poll` (through the
thread-local `REACTOR`): interest registration/removal or a wake. -/
inductive RAction where
  | addRead : Fd → Waker → RAction
  | removeRead : Fd → RAction
  | addWrite : Fd → Waker → RAction
  | removeWrite : Fd → RAction
  | wakeup : Wakeup → RAction
deriving Repr, DecidableEq

/-- `Poll<()>` -/
inductive PollRes where
  | ready
  | pending
deriving Repr, DecidableEq

/-- A `Task` wraps one boxed future, embedded as the script of its
remaining polls: each poll performs some reactor actions and returns
`ready` or `pending`. -/
structure Task where
  future : List (List RAction × PollRes)
deriving Repr, DecidableEq

/-- `Task::poll`: advance the future one step.  Returns the poll result,
the reactor actions this step performs, and the task with the rest of
its script.  (The `waker` argument is the suspension contact point the
loop hands in; the script already fixed which waker each registration
captures, mirroring that a concrete future's behaviour is opaque to the
loop.) -/
def Task.poll (t : Task) (_w : Waker) : PollRes × List RAction × Task :=
  match t.future with
  | [] => (PollRes.ready, [], ⟨[]⟩)
  | (acts, r) :: rest => (r, acts, ⟨rest⟩)

/-- The number of values of `usize` (the build targets 64-bit).  The
task counter is a `usize` and `next_task` computes `counter + 1`, which
wraps around to `0` at `usize::MAX` in release builds (debug builds
panic at that same point, so in either build no fresh id strictly above
`usize::MAX` ever exists); the model uses the release-mode wrapping
semantics, written as an explicit `% usizeSize`. -/
def usizeSize : Nat := 2 ^ 64

/-! ### Key-sorted association lists, embedding `BTreeMap` -/

/-- `BTreeMap::insert` on a key-sorted association list: replaces the
value if the key is present, otherwise inserts keeping key order. -/
def mapInsert {K V : Type} [LinearOrder K] (k : K) (v : V) :
    List (K × V) → List (K × V)
  | [] => [(k, v)]
  | (k', v') :: rest =>
    if k < k' then (k, v) :: (k', v') :: rest
    else if k = k' then (k, v) :: rest
    else (k', v') :: mapInsert k v rest

/-- `BTreeMap::remove`: returns the removed value (if any) and the map
without the first binding of that key. -/
def mapRemove {K V : Type} [DecidableEq K] (k : K) :
    List (K × V) → Option V × List (K × V)
  | [] => (none, [])
  | (k', v') :: rest =>
    if k = k' then (some v', rest)
    else
      let r := mapRemove k rest
      (r.1, (k', v') :: r.2)

/-- `BTreeMap::contains_key`. -/
def mapContains {K V : Type} [DecidableEq K] (k : K) : List (K × V) → Bool
  | [] => false
  | (k', _) :: rest => if k = k' then true else mapContains k rest

/-- `BTreeMap::get` (value lookup). -/
def mapFind {K V : Type} [DecidableEq K] (k : K) : List (K × V) → Option V
  | [] => none
  | (k', v') :: rest => if k = k' then some v' else mapFind k rest

/-! ### The event loop state -/

/-- The `EventLoop` struct: read/write interest registries, waker-token
counter, wait queue and run queue. -/
structure EventLoop where
  read : List (Fd × Waker)
  write : List (Fd × Waker)
  counter : Nat
  wait_queue : List (TaskId × Task)
  run_queue : List Wakeup
deriving Repr, DecidableEq

namespace EventLoop

/-- `EventLoop::new`. -/
def new : EventLoop :=
  { read := [], write := [], counter := 0, wait_queue := [], run_queue := [] }

/-- `EventLoop::add_read_interest`: register unless the descriptor already
has a read waiter. -/
def add_read_interest (l : EventLoop) (fd : Fd) (w : Waker) : EventLoop :=
  if mapContains fd l.read then l
  else { l with read := mapInsert fd w l.read }

/-- `EventLoop::remove_read_interest`. -/
def remove_read_interest (l : EventLoop) (fd : Fd) : EventLoop :=
  { l with read := (mapRemove fd l.read).2 }

/-- `EventLoop::remove_write_interest`. -/
def remove_write_interest (l : EventLoop) (fd : Fd) : EventLoop :=
  { l with write := (mapRemove fd l.write).2 }

/-- `EventLoop::add_write_interest`: register unless the descriptor
already has a write waiter. -/
def add_write_interest (l : EventLoop) (fd : Fd) (w : Waker) : EventLoop :=
  if mapContains fd l.write then l
  else { l with write := mapInsert fd w l.write }

/-- `EventLoop::wake`: push the wakeup on the back of the run queue. -/
def wake (l : EventLoop) (wk : Wakeup) : EventLoop :=
  { l with run_queue := l.run_queue ++ [wk] }

/-- `EventLoop::next_task`: hand out the current counter value as the new
`TaskId` (with a waker built from `Token(counter)`), then increment the
`usize` counter — with wraparound at `usize::MAX` (see `usizeSize`). -/
def next_task (l : EventLoop) : (TaskId × Waker) × EventLoop :=
  ((l.counter, l.counter), { l with counter := (l.counter + 1) % usizeSize })

/-- Interpretation of one reactor call performed inside a `poll`. -/
def applyRAction (l : EventLoop) : RAction → EventLoop
  | RAction.addRead fd w => l.add_read_interest fd w
  | RAction.removeRead fd => l.remove_read_interest fd
  | RAction.addWrite fd w => l.add_write_interest fd w
  | RAction.removeWrite fd => l.remove_write_interest fd
  | RAction.wakeup wk => l.wake wk

/-- Interpretation of the sequence of reactor calls one `poll` performs. -/
def applyRActions (l : EventLoop) (acts : List RAction) : EventLoop :=
  acts.foldl applyRAction l

/-- `EventLoop::do_spawn`: allocate a `TaskId`, poll the task once; if it
is `Ready` immediately, never put it in the wait queue, otherwise insert
it under the new id. -/
def do_spawn (l : EventLoop) (f : Task) : EventLoop :=
  let idw := l.next_task
  let pr := f.poll idw.1.2
  let l2 := applyRActions idw.2 pr.2.1
  match pr.1 with
  | PollRes.ready => l2
  | PollRes.pending =>
      { l2 with wait_queue := mapInsert idw.1.1 pr.2.2 l2.wait_queue }

end EventLoop

/-- `Token::wake_by_ref`: build a `Wakeup` carrying the token's index and
a clone of the token's waker, and push it on the reactor's run queue. -/
def wake_by_ref (l : EventLoop) (idx : Nat) : EventLoop :=
  l.wake { index := idx, waker := idx }

/-- The wakeups a single reactor call enqueues (one for a `wakeup` call,
none otherwise). -/
def ractionWakes : RAction → List Wakeup
  | RAction.wakeup wk => [wk]
  | _ => []

/-- All wakeups a sequence of reactor calls enqueues, in order. -/
def ractionsWakes (acts : List RAction) : List Wakeup :=
  (acts.map ractionWakes).flatten

/-- Number of wakeups one poll step enqueues. -/
def wakeCount (acts : List RAction) : Nat :=
  (ractionsWakes acts).length

/-- Termination measure bookkeeping: weight of one scripted poll step. -/
def stepWeight (s : List RAction × PollRes) : Nat :=
  1 + wakeCount s.1

/-- Termination measure bookkeeping: weight of a task's remaining script. -/
def Task.weight (t : Task) : Nat :=
  (t.future.map stepWeight).sum

/-- Termination measure bookkeeping: total weight of a wait queue. -/
def waitWeight (wq : List (TaskId × Task)) : Nat :=
  (wq.map fun p => p.2.weight).sum

/-- Termination measure for the run-queue drain: pending wakeups plus the
total script weight of suspended tasks.  Each drain iteration strictly
decreases it (proved below), so it bounds the number of iterations. -/
def EventLoop.loopWeight (l : EventLoop) : Nat :=
  l.run_queue.length + waitWeight l.wait_queue

namespace EventLoop

/-- One iteration of the run-queue drain loop in `EventLoop::run`, for an
already-popped wakeup `wk`: remove its `TaskId` from the wait queue; if
absent, skip; otherwise poll the task with the wakeup's waker and, if
still `Pending`, re-insert it under the same id.  Returns the new state
and the id of the task that was stepped (if any). -/
def drainStep (l : EventLoop) (wk : Wakeup) : EventLoop × Option TaskId :=
  match (mapRemove wk.index l.wait_queue).1 with
  | none => ({ l with wait_queue := (mapRemove wk.index l.wait_queue).2 }, none)
  | some t =>
    match (t.poll wk.waker).1 with
    | PollRes.pending =>
      ({ applyRActions { l with wait_queue := (mapRemove wk.index l.wait_queue).2 }
            (t.poll wk.waker).2.1 with
         wait_queue :=
           mapInsert wk.index (t.poll wk.waker).2.2
             (applyRActions { l with wait_queue := (mapRemove wk.index l.wait_queue).2 }
                (t.poll wk.waker).2.1).wait_queue },
       some wk.index)
    | PollRes.ready =>
      (applyRActions { l with wait_queue := (mapRemove wk.index l.wait_queue).2 }
         (t.poll wk.waker).2.1,
       some wk.index)

/-- The run-queue drain loop of `EventLoop::run` (`loop { pop_front;
... }`), with an explicit fuel argument as termination device; `drain`
below instantiates the fuel with the `loopWeight` measure, and
`drain_run_queue_nil` / `drain_run_queue_cons` prove that this fuel
never runs out, so `drain` satisfies exactly the source's recursion:
pop wakeups from the front of the run queue until it is empty, handling
each via `drainStep`.  Also returns the ids of stepped tasks in order. -/
def drainFuel : Nat → EventLoop → EventLoop × List TaskId
  | 0, l => (l, [])
  | Nat.succ fuel, l =>
    match l.run_queue with
    | [] => (l, [])
    | wk :: rest =>
      let sr := drainStep { l with run_queue := rest } wk
      let dr := drainFuel fuel sr.1
      (dr.1, sr.2.toList ++ dr.2)

/-- The run-queue drain loop of `EventLoop::run`: repeatedly pop the
front of the run queue and handle the wakeup, until the queue is empty. -/
def drain (l : EventLoop) : EventLoop × List TaskId :=
  drainFuel l.loopWeight l

end EventLoop

/-- One registry iteration of the readiness-signalling code in
`EventLoop::run`: for each `(fd, waker)` entry of `ps`, if `FD_ISSET`
holds for `fd` (membership in the ready set `rdy`), invoke
`waker.wake_by_ref()`. -/
def wakeReadyFold (rdy : List Fd) (ps : List (Fd × Waker)) (acc : EventLoop) : EventLoop :=
  ps.foldl (fun acc p => if p.1 ∈ rdy then wake_by_ref acc p.2 else acc) acc

/-- The readiness-to-wakeup translation in `EventLoop::run`: iterate the
read registry waking every read-ready descriptor's waiter, then iterate
the write registry (of the resulting state) waking every write-ready
descriptor's waiter.  Waking only enqueues on the run queue. -/
def EventLoop.wakePhase (l : EventLoop) (readReady writeReady : List Fd) : EventLoop :=
  wakeReadyFold writeReady (wakeReadyFold readReady l.read l).write
    (wakeReadyFold readReady l.read l)

/-- Outcome of the `select(2)` call, as the loop observes it: `err` for a
return value of `-1` (`interrupted` records whether the underlying error
was `EINTR`, which the code never inspects), or `ok` with the sets of
descriptors reported ready for read and for write (both empty on
timeout). -/
inductive SelectResult where
  | err (interrupted : Bool)
  | ok (readReady writeReady : List Fd)
deriving Repr, DecidableEq

/-- Result of one iteration of the loop in `EventLoop::run`. -/
inductive IterResult where
  | panicked (msg : String)
  | finished (l : EventLoop)
  | next (l : EventLoop)
deriving Repr, DecidableEq

/-- One iteration of the loop body of `EventLoop::run`: call `select`
(outcome supplied by the environment); panic on `-1`; otherwise wake every
ready descriptor's waiter, drain the run queue, and return iff the wait
queue is now empty. -/
def EventLoop.iterate (l : EventLoop) (sel : SelectResult) : IterResult :=
  match sel with
  | SelectResult.err _ => IterResult.panicked "select()"
  | SelectResult.ok rr wr =>
    let l2 := (EventLoop.drain (l.wakePhase rr wr)).1
    if l2.wait_queue.isEmpty then IterResult.finished l2 else IterResult.next l2

/-- Outcome of `EventLoop::run` against a finite stream of `select`
outcomes: the loop returned, panicked, or consumed the whole stream while
still iterating. -/
inductive RunOutcome where
  | done (l : EventLoop)
  | panicked (msg : String)
  | pendingInput (l : EventLoop)
deriving Repr, DecidableEq

/-- The iteration of `EventLoop::run` after the initial spawn, fed by a
stream of `select` outcomes.  Also counts how many `select` calls (loop
iterations) were performed. -/
def EventLoop.runAux : EventLoop → List SelectResult → RunOutcome × Nat
  | l, [] => (RunOutcome.pendingInput l, 0)
  | l, s :: rest =>
    match l.iterate s with
    | IterResult.panicked m => (RunOutcome.panicked m, 1)
    | IterResult.finished l' => (RunOutcome.done l', 1)
    | IterResult.next l' =>
      let r := EventLoop.runAux l' rest
      (r.1, r.2 + 1)

/-- `EventLoop::run`: spawn the root future (one immediate poll), then
iterate the reactor loop. -/
def EventLoop.run (l : EventLoop) (f : Task) (sels : List SelectResult) :
    RunOutcome × Nat :=
  EventLoop.runAux (l.do_spawn f) sels

/-- The crate-level `run` entry point: run on the thread-local reactor,
which starts from `EventLoop::new`. -/
def run (f : Task) (sels : List SelectResult) : RunOutcome × Nat :=
  EventLoop.new.run f sels

/-- Invariant relating the counter to the wait queue: every suspended
task's id was allocated by a past `next_task` call, hence is below the
counter.  Holds in every reachable state (preservation proved below) and
makes freshly allocated ids distinct from every live task's id. -/
def wqBounded (l : EventLoop) : Prop :=
  ∀ p ∈ l.wait_queue, p.1 < l.counter

instance (l : EventLoop) : Decidable (wqBounded l) :=
  inferInstanceAs (Decidable (∀ p ∈ l.wait_queue, p.1 < l.counter))

/-! ### Association-list map lemmas -/

theorem mapRemove_fst {K V : Type} [DecidableEq K] (k : K) (m : List (K × V)) :
    (mapRemove k m).1 = mapFind k m := by
  induction m with
  | nil => rfl
  | cons p rest ih =>
    obtain ⟨k', v'⟩ := p
    by_cases h : k = k' <;> simp [mapRemove, mapFind, h, ih]

theorem mapRemove_of_not_contains {K V : Type} [DecidableEq K] {k : K} {m : List (K × V)}
    (h : mapContains k m = false) : mapRemove k m = (none, m) := by
  induction m with
  | nil => rfl
  | cons p rest ih =>
    obtain ⟨k', v'⟩ := p
    by_cases hk : k = k'
    · simp [mapContains, hk] at h
    · simp only [mapContains, if_neg hk] at h
      simp [mapRemove, hk, ih h]

theorem mapContains_mapRemove_ne {K V : Type} [DecidableEq K] {i k : K} (hik : i ≠ k)
    (m : List (K × V)) : mapContains i (mapRemove k m).2 = mapContains i m := by
  induction m with
  | nil => rfl
  | cons p rest ih =>
    obtain ⟨k', v'⟩ := p
    by_cases hk : k = k'
    · subst hk
      simp [mapRemove, mapContains, if_neg hik]
    · simp only [mapRemove, if_neg hk, mapContains]
      by_cases hi : i = k' <;> simp [hi, ih]

theorem mapContains_mapInsert_ne {K V : Type} [LinearOrder K] {i k : K} (hik : i ≠ k)
    (v : V) (m : List (K × V)) : mapContains i (mapInsert k v m) = mapContains i m := by
  induction m with
  | nil => simp [mapInsert, mapContains, hik]
  | cons p rest ih =>
    obtain ⟨k', v'⟩ := p
    simp only [mapInsert]
    by_cases h1 : k < k'
    · simp [h1, mapContains, hik]
    · by_cases h2 : k = k'
      · simp [h1, h2, mapContains, hik, h2 ▸ hik]
      · simp only [if_neg h1, if_neg h2, mapContains]
        by_cases hi : i = k' <;> simp [hi, ih]

theorem mapFind_mapInsert_self {K V : Type} [LinearOrder K] (k : K) (v : V)
    (m : List (K × V)) : mapFind k (mapInsert k v m) = some v := by
  induction m with
  | nil => simp [mapInsert, mapFind]
  | cons p rest ih =>
    obtain ⟨k', v'⟩ := p
    simp only [mapInsert]
    by_cases h1 : k < k'
    · simp [h1, mapFind]
    · by_cases h2 : k = k' <;> simp [h1, h2, mapFind, ih, h2]

theorem mapContains_iff_exists {K V : Type} [DecidableEq K] (k : K) (m : List (K × V)) :
    mapContains k m = true ↔ ∃ v, (k, v) ∈ m := by
  induction m with
  | nil => simp [mapContains]
  | cons p rest ih =>
    obtain ⟨k', v'⟩ := p
    by_cases h : k = k'
    · subst h
      simp [mapContains]
    · simp [mapContains, h, ih, Prod.ext_iff]

theorem mem_mapInsert {K V : Type} [LinearOrder K] {q : K × V} {k : K} {v : V}
    {m : List (K × V)} (hq : q ∈ mapInsert k v m) : q = (k, v) ∨ q ∈ m := by
  induction m with
  | nil => simpa [mapInsert] using hq
  | cons p rest ih =>
    obtain ⟨k', v'⟩ := p
    simp only [mapInsert] at hq
    by_cases h1 : k < k'
    · simp only [if_pos h1, List.mem_cons] at hq
      rcases hq with h | h | h
      · exact Or.inl h
      · right; simp [h]
      · right; simp [h]
    · by_cases h2 : k = k'
      · simp only [if_neg h1, if_pos h2, List.mem_cons] at hq
        rcases hq with h | h
        · exact Or.inl h
        · right; simp [h]
      · simp only [if_neg h1, if_neg h2, List.mem_cons] at hq
        rcases hq with h | h
        · right; simp [h]
        · rcases ih h with h | h
          · exact Or.inl h
          · right; simp [h]

theorem mem_mapRemove {K V : Type} [DecidableEq K] {q : K × V} {k : K}
    {m : List (K × V)} (hq : q ∈ (mapRemove k m).2) : q ∈ m := by
  induction m with
  | nil => exact hq
  | cons p rest ih =>
    obtain ⟨k', v'⟩ := p
    by_cases h : k = k'
    · simp only [mapRemove, if_pos h] at hq
      simp [hq]
    · simp only [mapRemove, if_neg h, List.mem_cons] at hq
      rcases hq with h' | h'
      · simp [h']
      · simp [ih h']

/-! ### Reactor-call interpretation lemmas -/

theorem applyRAction_wait_queue (l : EventLoop) (a : RAction) :
    (l.applyRAction a).wait_queue = l.wait_queue := by
  cases a with
  | addRead fd w =>
    simp only [EventLoop.applyRAction, EventLoop.add_read_interest]
    split <;> rfl
  | removeRead fd => rfl
  | addWrite fd w =>
    simp only [EventLoop.applyRAction, EventLoop.add_write_interest]
    split <;> rfl
  | removeWrite fd => rfl
  | wakeup wk => rfl

theorem applyRAction_counter (l : EventLoop) (a : RAction) :
    (l.applyRAction a).counter = l.counter := by
  cases a with
  | addRead fd w =>
    simp only [EventLoop.applyRAction, EventLoop.add_read_interest]
    split <;> rfl
  | removeRead fd => rfl
  | addWrite fd w =>
    simp only [EventLoop.applyRAction, EventLoop.add_write_interest]
    split <;> rfl
  | removeWrite fd => rfl
  | wakeup wk => rfl

theorem applyRAction_run_queue (l : EventLoop) (a : RAction) :
    (l.applyRAction a).run_queue = l.run_queue ++ ractionWakes a := by
  cases a with
  | addRead fd w =>
    simp only [EventLoop.applyRAction, EventLoop.add_read_interest, ractionWakes]
    split <;> simp
  | removeRead fd =>
    simp [EventLoop.applyRAction, EventLoop.remove_read_interest, ractionWakes]
  | addWrite fd w =>
    simp only [EventLoop.applyRAction, EventLoop.add_write_interest, ractionWakes]
    split <;> simp
  | removeWrite fd =>
    simp [EventLoop.applyRAction, EventLoop.remove_write_interest, ractionWakes]
  | wakeup wk => rfl

theorem applyRActions_wait_queue (l : EventLoop) (acts : List RAction) :
    (l.applyRActions acts).wait_queue = l.wait_queue := by
  induction acts generalizing l with
  | nil => rfl
  | cons a acts ih =>
    show ((l.applyRAction a).applyRActions acts).wait_queue = l.wait_queue
    rw [ih, applyRAction_wait_queue]

theorem applyRActions_counter (l : EventLoop) (acts : List RAction) :
    (l.applyRActions acts).counter = l.counter := by
  induction acts generalizing l with
  | nil => rfl
  | cons a acts ih =>
    show ((l.applyRAction a).applyRActions acts).counter = l.counter
    rw [ih, applyRAction_counter]

theorem ractionsWakes_cons (a : RAction) (acts : List RAction) :
    ractionsWakes (a :: acts) = ractionWakes a ++ ractionsWakes acts := by
  simp [ractionsWakes]

theorem applyRActions_run_queue (l : EventLoop) (acts : List RAction) :
    (l.applyRActions acts).run_queue = l.run_queue ++ ractionsWakes acts := by
  induction acts generalizing l with
  | nil => simp [EventLoop.applyRActions, ractionsWakes]
  | cons a acts ih =>
    show ((l.applyRAction a).applyRActions acts).run_queue = _
    rw [ih, applyRAction_run_queue, ractionsWakes_cons, List.append_assoc]

theorem applyRActions_run_len (l : EventLoop) (acts : List RAction) :
    (l.applyRActions acts).run_queue.length = l.run_queue.length + wakeCount acts := by
  rw [applyRActions_run_queue, List.length_append, wakeCount]

/-! ### Termination of the drain loop -/

theorem waitWeight_cons (k : TaskId) (t : Task) (m : List (TaskId × Task)) :
    waitWeight ((k, t) :: m) = t.weight + waitWeight m := by
  simp [waitWeight]

theorem waitWeight_mapRemove (k : TaskId) (m : List (TaskId × Task)) :
    waitWeight (mapRemove k m).2 + (mapRemove k m).1.elim 0 Task.weight = waitWeight m := by
  induction m with
  | nil => rfl
  | cons p rest ih =>
    obtain ⟨k', t⟩ := p
    by_cases h : k = k'
    · simp only [mapRemove, if_pos h, Option.elim, waitWeight_cons]
      omega
    · simp only [mapRemove, if_neg h, waitWeight_cons]
      omega

theorem waitWeight_mapInsert (k : TaskId) (t : Task) (m : List (TaskId × Task)) :
    waitWeight (mapInsert k t m) ≤ t.weight + waitWeight m := by
  induction m with
  | nil => simp [mapInsert, waitWeight]
  | cons p rest ih =>
    obtain ⟨k', t'⟩ := p
    simp only [mapInsert]
    by_cases h1 : k < k'
    · simp only [if_pos h1, waitWeight_cons]
      omega
    · by_cases h2 : k = k'
      · simp only [if_neg h1, if_pos h2, waitWeight_cons]
        omega
      · simp only [if_neg h1, if_neg h2, waitWeight_cons]
        omega

theorem drainStep_loopWeight (l : EventLoop) (wk : Wakeup) :
    (l.drainStep wk).1.loopWeight ≤ l.loopWeight := by
  have hrm := waitWeight_mapRemove wk.index l.wait_queue
  unfold EventLoop.drainStep
  cases hfind : (mapRemove wk.index l.wait_queue).1 with
  | none =>
    rw [hfind] at hrm
    simp only [Option.elim] at hrm
    simp only [EventLoop.loopWeight]
    omega
  | some t =>
    rw [hfind] at hrm
    simp only [Option.elim] at hrm
    cases hf : t.future with
    | nil =>
      simp only [Task.poll, hf, EventLoop.applyRActions, List.foldl_nil,
        EventLoop.loopWeight]
      omega
    | cons s rest' =>
      obtain ⟨acts, r⟩ := s
      have hw : t.weight = 1 + wakeCount acts + Task.weight ⟨rest'⟩ := by
        simp only [Task.weight, hf, List.map_cons, List.sum_cons, stepWeight]
      have h1 := applyRActions_run_len
        { l with wait_queue := (mapRemove wk.index l.wait_queue).2 } acts
      have h2 := applyRActions_wait_queue
        { l with wait_queue := (mapRemove wk.index l.wait_queue).2 } acts
      simp only [Task.poll, hf]
      cases r with
      | pending =>
        have h3 := waitWeight_mapInsert wk.index ⟨rest'⟩
          ((EventLoop.applyRActions
              { l with wait_queue := (mapRemove wk.index l.wait_queue).2 } acts).wait_queue)
        rw [h2] at h3
        simp only [EventLoop.loopWeight] at *
        simp only [h1, h2] at *
        omega
      | ready =>
        simp only [EventLoop.loopWeight] at *
        simp only [h1, h2] at *
        omega

theorem drainFuel_eq_of_le (fuelA : Nat) : ∀ (fuelB : Nat) (l : EventLoop),
    l.loopWeight ≤ fuelA → l.loopWeight ≤ fuelB →
    EventLoop.drainFuel fuelA l = EventLoop.drainFuel fuelB l := by
  induction fuelA with
  | zero =>
    intro fuelB l h1 h2
    have hq : l.run_queue = [] := by
      have hlen : l.run_queue.length = 0 := by
        simp only [EventLoop.loopWeight] at h1
        omega
      exact List.eq_nil_of_length_eq_zero hlen
    cases fuelB with
    | zero => rfl
    | succ f2 => simp [EventLoop.drainFuel, hq]
  | succ f ih =>
    intro fuelB l h1 h2
    cases hq : l.run_queue with
    | nil =>
      cases fuelB with
      | zero => simp [EventLoop.drainFuel, hq]
      | succ f2 => simp [EventLoop.drainFuel, hq]
    | cons wk rest =>
      have hpos : ({ l with run_queue := rest } : EventLoop).loopWeight + 1 = l.loopWeight := by
        simp only [EventLoop.loopWeight, hq, List.length_cons]
        omega
      cases fuelB with
      | zero => omega
      | succ f2 =>
        simp only [EventLoop.drainFuel, hq]
        have hd := drainStep_loopWeight { l with run_queue := rest } wk
        rw [ih f2 (EventLoop.drainStep { l with run_queue := rest } wk).1
          (by omega) (by omega)]

theorem drain_run_queue_nil {l : EventLoop} (h : l.run_queue = []) :
    l.drain = (l, []) := by
  unfold EventLoop.drain
  cases hw : l.loopWeight with
  | zero => rfl
  | succ f => simp [EventLoop.drainFuel, h]

theorem drain_run_queue_cons {l : EventLoop} {wk : Wakeup} {rest : List Wakeup}
    (h : l.run_queue = wk :: rest) :
    l.drain =
      ((EventLoop.drainStep { l with run_queue := rest } wk).1.drain.1,
       (EventLoop.drainStep { l with run_queue := rest } wk).2.toList ++
         (EventLoop.drainStep { l with run_queue := rest } wk).1.drain.2) := by
  have hpos : ({ l with run_queue := rest } : EventLoop).loopWeight + 1 = l.loopWeight := by
    simp only [EventLoop.loopWeight, h, List.length_cons]
    omega
  have hd := drainStep_loopWeight { l with run_queue := rest } wk
  show EventLoop.drainFuel l.loopWeight l = _
  rw [← hpos]
  simp only [EventLoop.drainFuel, h]
  rw [drainFuel_eq_of_le _ (EventLoop.drainStep { l with run_queue := rest } wk).1.loopWeight
    (EventLoop.drainStep { l with run_queue := rest } wk).1 (by omega) (by omega)]
  rfl

/-! ### Behaviour of one drain iteration -/

theorem mapContains_eq_isSome_mapFind {K V : Type} [DecidableEq K] (k : K)
    (m : List (K × V)) : mapContains k m = (mapFind k m).isSome := by
  induction m with
  | nil => rfl
  | cons p rest ih =>
    obtain ⟨k', v'⟩ := p
    by_cases h : k = k' <;> simp [mapContains, mapFind, h, ih]

theorem mapContains_mapInsert_self {K V : Type} [LinearOrder K] (k : K) (v : V)
    (m : List (K × V)) : mapContains k (mapInsert k v m) = true := by
  induction m with
  | nil => simp [mapInsert, mapContains]
  | cons p rest ih =>
    obtain ⟨k', v'⟩ := p
    simp only [mapInsert]
    by_cases h1 : k < k'
    · simp [h1, mapContains]
    · by_cases h2 : k = k' <;> simp [h1, h2, mapContains, ih]

/-- A stale wakeup (index absent from the wait queue) is a complete no-op:
no task stepped, state unchanged. -/
theorem drainStep_stale {l : EventLoop} {wk : Wakeup}
    (h : mapContains wk.index l.wait_queue = false) :
    l.drainStep wk = (l, none) := by
  unfold EventLoop.drainStep
  rw [mapRemove_of_not_contains h]

/-- Variant of `drainStep_stale` phrased on the removal result. -/
theorem drainStep_stale' {l : EventLoop} {wk : Wakeup}
    (hfind : (mapRemove wk.index l.wait_queue).1 = none) :
    l.drainStep wk = (l, none) := by
  apply drainStep_stale
  rw [mapContains_eq_isSome_mapFind, ← mapRemove_fst, hfind]
  rfl

/-- Equation for `drainStep` when the task is found and re-suspends. -/
theorem drainStep_eq_pending {l : EventLoop} {wk : Wakeup} {t : Task}
    (hfind : (mapRemove wk.index l.wait_queue).1 = some t)
    (hp : (t.poll wk.waker).1 = PollRes.pending) :
    l.drainStep wk =
      ({ EventLoop.applyRActions { l with wait_queue := (mapRemove wk.index l.wait_queue).2 }
            (t.poll wk.waker).2.1 with
         wait_queue :=
           mapInsert wk.index (t.poll wk.waker).2.2
             (EventLoop.applyRActions
                { l with wait_queue := (mapRemove wk.index l.wait_queue).2 }
                (t.poll wk.waker).2.1).wait_queue },
       some wk.index) := by
  unfold EventLoop.drainStep
  rw [hfind]
  simp [hp]

/-- Equation for `drainStep` when the task is found and completes. -/
theorem drainStep_eq_ready {l : EventLoop} {wk : Wakeup} {t : Task}
    (hfind : (mapRemove wk.index l.wait_queue).1 = some t)
    (hp : (t.poll wk.waker).1 = PollRes.ready) :
    l.drainStep wk =
      (EventLoop.applyRActions { l with wait_queue := (mapRemove wk.index l.wait_queue).2 }
         (t.poll wk.waker).2.1,
       some wk.index) := by
  unfold EventLoop.drainStep
  rw [hfind]
  simp [hp]

/-- A wakeup whose index is present steps exactly that task. -/
theorem drainStep_stepped {l : EventLoop} {wk : Wakeup}
    (h : mapContains wk.index l.wait_queue = true) :
    (l.drainStep wk).2 = some wk.index := by
  rw [mapContains_eq_isSome_mapFind, ← mapRemove_fst] at h
  cases hfind : (mapRemove wk.index l.wait_queue).1 with
  | none => rw [hfind] at h; simp at h
  | some t =>
    cases hp : (t.poll wk.waker).1 with
    | pending => rw [drainStep_eq_pending hfind hp]
    | ready => rw [drainStep_eq_ready hfind hp]

/-- One drain iteration never touches the wait-queue slot of any other
task id. -/
theorem drainStep_contains_ne {l : EventLoop} {wk : Wakeup} {i : TaskId}
    (hne : i ≠ wk.index) :
    mapContains i (l.drainStep wk).1.wait_queue = mapContains i l.wait_queue := by
  cases hfind : (mapRemove wk.index l.wait_queue).1 with
  | none => rw [drainStep_stale' hfind]
  | some t =>
    cases hp : (t.poll wk.waker).1 with
    | pending =>
      rw [drainStep_eq_pending hfind hp]
      simp only
      rw [mapContains_mapInsert_ne hne, applyRActions_wait_queue]
      exact mapContains_mapRemove_ne hne l.wait_queue
    | ready =>
      rw [drainStep_eq_ready hfind hp]
      simp only
      rw [applyRActions_wait_queue]
      exact mapContains_mapRemove_ne hne l.wait_queue

/-- One drain iteration can only append to the run queue (the wakes the
polled task performs), never drop or reorder what is already queued. -/
theorem drainStep_run_queue (l : EventLoop) (wk : Wakeup) :
    ∃ extra, (l.drainStep wk).1.run_queue = l.run_queue ++ extra := by
  cases hfind : (mapRemove wk.index l.wait_queue).1 with
  | none =>
    rw [drainStep_stale' hfind]
    exact ⟨[], by simp⟩
  | some t =>
    refine ⟨ractionsWakes (t.poll wk.waker).2.1, ?_⟩
    cases hp : (t.poll wk.waker).1 with
    | pending =>
      rw [drainStep_eq_pending hfind hp]
      simp only
      rw [applyRActions_run_queue]
    | ready =>
      rw [drainStep_eq_ready hfind hp]
      simp only
      rw [applyRActions_run_queue]

theorem drainStep_counter (l : EventLoop) (wk : Wakeup) :
    (l.drainStep wk).1.counter = l.counter := by
  cases hfind : (mapRemove wk.index l.wait_queue).1 with
  | none => rw [drainStep_stale' hfind]
  | some t =>
    cases hp : (t.poll wk.waker).1 with
    | pending =>
      rw [drainStep_eq_pending hfind hp]
      simp only
      rw [applyRActions_counter]
    | ready =>
      rw [drainStep_eq_ready hfind hp]
      simp only
      rw [applyRActions_counter]

/-- A task id absent from the wait queue is never stepped during a drain
and stays absent: wakeups for it are stale for the whole pass. -/
theorem drainStep_absent {l : EventLoop} {wk : Wakeup} {i : TaskId}
    (h : mapContains i l.wait_queue = false) :
    mapContains i (l.drainStep wk).1.wait_queue = false ∧
      (l.drainStep wk).2 ≠ some i := by
  by_cases hwk : mapContains wk.index l.wait_queue = true
  · have hne : i ≠ wk.index := by
      intro he
      rw [he] at h
      rw [h] at hwk
      exact Bool.false_ne_true hwk
    refine ⟨by rw [drainStep_contains_ne hne]; exact h, ?_⟩
    rw [drainStep_stepped hwk]
    intro he
    simp only [Option.some.injEq] at he
    exact hne he.symm
  · rw [Bool.not_eq_true] at hwk
    rw [drainStep_stale hwk]
    exact ⟨h, by simp⟩

theorem drainFuel_absent (fuel : Nat) : ∀ (l : EventLoop) (i : TaskId),
    mapContains i l.wait_queue = false →
    mapContains i (EventLoop.drainFuel fuel l).1.wait_queue = false ∧
      i ∉ (EventLoop.drainFuel fuel l).2 := by
  induction fuel with
  | zero => exact fun l i h => ⟨h, by simp [EventLoop.drainFuel]⟩
  | succ f ih =>
    intro l i h
    cases hq : l.run_queue with
    | nil =>
      refine ⟨?_, ?_⟩ <;> simp only [EventLoop.drainFuel, hq]
      · exact h
      · simp
    | cons wk rest =>
      have hstep := @drainStep_absent { l with run_queue := rest } wk i h
      have hrec := ih (EventLoop.drainStep { l with run_queue := rest } wk).1 i hstep.1
      refine ⟨?_, ?_⟩
      · simp only [EventLoop.drainFuel, hq]
        exact hrec.1
      · simp only [EventLoop.drainFuel, hq, List.mem_append]
        intro hmem
        rcases hmem with hmem | hmem
        · cases ho : (EventLoop.drainStep { l with run_queue := rest } wk).2 with
          | none => rw [ho] at hmem; simp at hmem
          | some j =>
            rw [ho] at hmem
            simp at hmem
            exact hstep.2 (by rw [ho, hmem])
        · exact hrec.2 hmem

theorem drain_absent {l : EventLoop} {i : TaskId}
    (h : mapContains i l.wait_queue = false) :
    mapContains i l.drain.1.wait_queue = false ∧ i ∉ l.drain.2 :=
  drainFuel_absent l.loopWeight l i h

/-- Draining with an empty wait queue steps nothing and keeps it empty. -/
theorem drainStep_wait_nil {l : EventLoop} {wk : Wakeup} (h : l.wait_queue = []) :
    (l.drainStep wk).1.wait_queue = [] ∧ (l.drainStep wk).2 = none := by
  have : mapContains wk.index l.wait_queue = false := by rw [h]; rfl
  rw [drainStep_stale this]
  exact ⟨h, rfl⟩

theorem drainFuel_wait_nil (fuel : Nat) : ∀ (l : EventLoop), l.wait_queue = [] →
    (EventLoop.drainFuel fuel l).1.wait_queue = [] := by
  induction fuel with
  | zero => exact fun l h => h
  | succ f ih =>
    intro l h
    cases hq : l.run_queue with
    | nil => simpa [EventLoop.drainFuel, hq] using h
    | cons wk rest =>
      simp only [EventLoop.drainFuel, hq]
      exact ih _ (drainStep_wait_nil (l := { l with run_queue := rest }) h).1

/-! ### The readiness-signalling phase -/

theorem wakeReadyFold_frame (rdy : List Fd) :
    ∀ (ps : List (Fd × Waker)) (acc : EventLoop),
      (wakeReadyFold rdy ps acc).read = acc.read ∧
      (wakeReadyFold rdy ps acc).write = acc.write ∧
      (wakeReadyFold rdy ps acc).wait_queue = acc.wait_queue ∧
      (wakeReadyFold rdy ps acc).counter = acc.counter ∧
      ∃ extra, (wakeReadyFold rdy ps acc).run_queue = acc.run_queue ++ extra := by
  intro ps
  induction ps with
  | nil => exact fun acc => ⟨rfl, rfl, rfl, rfl, [], by simp [wakeReadyFold]⟩
  | cons p ps ih =>
    intro acc
    have hstep : wakeReadyFold rdy (p :: ps) acc
        = wakeReadyFold rdy ps (if p.1 ∈ rdy then wake_by_ref acc p.2 else acc) := rfl
    by_cases hm : p.1 ∈ rdy
    · rw [hstep, if_pos hm]
      obtain ⟨h1, h2, h3, h4, extra, h5⟩ := ih (wake_by_ref acc p.2)
      refine ⟨h1, h2, h3, h4, Wakeup.mk p.2 p.2 :: extra, ?_⟩
      rw [h5]
      simp [wake_by_ref, EventLoop.wake]
    · rw [hstep, if_neg hm]
      exact ih acc

/-- Signalling readiness only appends wakeups to the run queue; the
registries, the wait queue and the counter are untouched. -/
theorem wakePhase_frame (l : EventLoop) (rr wr : List Fd) :
    (l.wakePhase rr wr).read = l.read ∧
    (l.wakePhase rr wr).write = l.write ∧
    (l.wakePhase rr wr).wait_queue = l.wait_queue ∧
    (l.wakePhase rr wr).counter = l.counter ∧
    ∃ extra, (l.wakePhase rr wr).run_queue = l.run_queue ++ extra := by
  obtain ⟨a1, a2, a3, a4, e1, a5⟩ := wakeReadyFold_frame rr l.read l
  obtain ⟨b1, b2, b3, b4, e2, b5⟩ :=
    wakeReadyFold_frame wr (wakeReadyFold rr l.read l).write (wakeReadyFold rr l.read l)
  unfold EventLoop.wakePhase
  refine ⟨?_, ?_, ?_, ?_, e1 ++ e2, ?_⟩
  · rw [b1, a1]
  · rw [b2, a2]
  · rw [b3, a3]
  · rw [b4, a4]
  · rw [b5, a5, List.append_assoc]

/-! ### Preservation of the counter invariant -/

theorem wqBounded_new : wqBounded EventLoop.new := by
  intro p hp
  exact absurd hp (List.not_mem_nil p)

theorem wqBounded_applyRActions {l : EventLoop} (acts : List RAction) (h : wqBounded l) :
    wqBounded (l.applyRActions acts) := by
  intro p hp
  rw [applyRActions_wait_queue] at hp
  rw [applyRActions_counter]
  exact h p hp

theorem wqBounded_do_spawn {l : EventLoop} (f : Task)
    (hnw : l.counter + 1 < usizeSize) (h : wqBounded l) :
    wqBounded (l.do_spawn f) := by
  have hmod : (l.counter + 1) % usizeSize = l.counter + 1 := Nat.mod_eq_of_lt hnw
  have hsucc : wqBounded
      ({ l with counter := (l.counter + 1) % usizeSize } : EventLoop) := by
    intro p hp
    show p.1 < (l.counter + 1) % usizeSize
    rw [hmod]
    exact Nat.lt_succ_of_lt (h p hp)
  have h1 : wqBounded
      (EventLoop.applyRActions { l with counter := (l.counter + 1) % usizeSize }
        (f.poll l.counter).2.1) :=
    wqBounded_applyRActions _ hsucc
  simp only [EventLoop.do_spawn, EventLoop.next_task]
  cases hq : (f.poll l.counter).1 with
  | ready => exact h1
  | pending =>
    intro p hp
    rcases mem_mapInsert hp with he | hmem
    · rw [he]
      show l.counter <
        (EventLoop.applyRActions { l with counter := (l.counter + 1) % usizeSize }
          (f.poll l.counter).2.1).counter
      rw [applyRActions_counter]
      show l.counter < (l.counter + 1) % usizeSize
      rw [hmod]
      exact Nat.lt_succ_self l.counter
    · exact h1 p hmem

theorem wqBounded_drainStep {l : EventLoop} (wk : Wakeup) (h : wqBounded l) :
    wqBounded (l.drainStep wk).1 := by
  cases hfind : (mapRemove wk.index l.wait_queue).1 with
  | none =>
    rw [drainStep_stale' hfind]
    exact h
  | some t =>
    have hwk : wk.index < l.counter := by
      have hc : mapContains wk.index l.wait_queue = true := by
        rw [mapContains_eq_isSome_mapFind, ← mapRemove_fst, hfind]
        rfl
      obtain ⟨v, hv⟩ := (mapContains_iff_exists _ _).1 hc
      exact h (wk.index, v) hv
    have hrm : wqBounded ({ l with wait_queue := (mapRemove wk.index l.wait_queue).2 } :
        EventLoop) :=
      fun p hp => h p (mem_mapRemove hp)
    cases hp : (t.poll wk.waker).1 with
    | ready =>
      rw [drainStep_eq_ready hfind hp]
      exact wqBounded_applyRActions _ hrm
    | pending =>
      rw [drainStep_eq_pending hfind hp]
      intro p hp'
      simp only at hp'
      rcases mem_mapInsert hp' with he | hmem
      · rw [he]
        show wk.index <
          (EventLoop.applyRActions
            { l with wait_queue := (mapRemove wk.index l.wait_queue).2 }
            (t.poll wk.waker).2.1).counter
        rw [applyRActions_counter]
        exact hwk
      · exact wqBounded_applyRActions _ hrm p hmem

theorem wqBounded_drainFuel (fuel : Nat) : ∀ (l : EventLoop), wqBounded l →
    wqBounded (EventLoop.drainFuel fuel l).1 := by
  induction fuel with
  | zero => exact fun l h => h
  | succ f ih =>
    intro l h
    cases hq : l.run_queue with
    | nil =>
      simp only [EventLoop.drainFuel, hq]
      exact h
    | cons wk rest =>
      simp only [EventLoop.drainFuel, hq]
      exact ih _ (wqBounded_drainStep (l := { l with run_queue := rest }) wk h)

theorem wqBounded_wakePhase {l : EventLoop} (rr wr : List Fd) (h : wqBounded l) :
    wqBounded (l.wakePhase rr wr) := by
  obtain ⟨-, -, hq, hc, -⟩ := wakePhase_frame l rr wr
  intro p hp
  rw [hq] at hp
  rw [hc]
  exact h p hp

/-! ### The claims -/

theorem add_read_interest_contains {l : EventLoop} {fd : Fd} (w : Waker)
    (h : mapContains fd l.read = true) : l.add_read_interest fd w = l := by
  simp [EventLoop.add_read_interest, h]

theorem add_read_interest_not_contains {l : EventLoop} {fd : Fd} (w : Waker)
    (h : mapContains fd l.read = false) :
    l.add_read_interest fd w = { l with read := mapInsert fd w l.read } := by
  simp [EventLoop.add_read_interest, h]

theorem add_write_interest_contains {l : EventLoop} {fd : Fd} (w : Waker)
    (h : mapContains fd l.write = true) : l.add_write_interest fd w = l := by
  simp [EventLoop.add_write_interest, h]

theorem add_write_interest_not_contains {l : EventLoop} {fd : Fd} (w : Waker)
    (h : mapContains fd l.write = false) :
    l.add_write_interest fd w = { l with write := mapInsert fd w l.write } := by
  simp [EventLoop.add_write_interest, h]

/-- C2: each interest registry holds at most one wake handle per
descriptor, and a second `add_interest` on an already-registered key is a
silent no-op that leaves the first handle in place: registering on an
occupied key changes nothing, and after registering `wA` on a free key
and then `wB` on the same key, the registered handle is still `wA`. -/
theorem c2_add_interest_first_wins (l : EventLoop) (fd : Fd) (wA wB : Waker) :
    (mapContains fd l.read = true → l.add_read_interest fd wA = l) ∧
    (mapContains fd l.read = false →
      (l.add_read_interest fd wA).add_read_interest fd wB = l.add_read_interest fd wA ∧
      mapFind fd ((l.add_read_interest fd wA).add_read_interest fd wB).read = some wA) ∧
    (mapContains fd l.write = true → l.add_write_interest fd wA = l) ∧
    (mapContains fd l.write = false →
      (l.add_write_interest fd wA).add_write_interest fd wB = l.add_write_interest fd wA ∧
      mapFind fd ((l.add_write_interest fd wA).add_write_interest fd wB).write = some wA) := by
  refine ⟨fun h => add_read_interest_contains wA h, fun h => ?_,
    fun h => add_write_interest_contains wA h, fun h => ?_⟩
  · have h2 : mapContains fd (l.add_read_interest fd wA).read = true := by
      rw [add_read_interest_not_contains wA h]
      exact mapContains_mapInsert_self fd wA l.read
    have h3 := add_read_interest_contains (l := l.add_read_interest fd wA) wB h2
    refine ⟨h3, ?_⟩
    rw [h3, add_read_interest_not_contains wA h]
    exact mapFind_mapInsert_self fd wA l.read
  · have h2 : mapContains fd (l.add_write_interest fd wA).write = true := by
      rw [add_write_interest_not_contains wA h]
      exact mapContains_mapInsert_self fd wA l.write
    have h3 := add_write_interest_contains (l := l.add_write_interest fd wA) wB h2
    refine ⟨h3, ?_⟩
    rw [h3, add_write_interest_not_contains wA h]
    exact mapFind_mapInsert_self fd wA l.write

/-- C2 witness: concrete run of the first-registration-wins behaviour on
descriptor 3 with handles 5 then 7, in both directions. -/
theorem c2_add_interest_first_wins_witness :
    ((EventLoop.new.add_read_interest 3 5).add_read_interest 3 7
        = EventLoop.new.add_read_interest 3 5 ∧
      mapFind 3 ((EventLoop.new.add_read_interest 3 5).add_read_interest 3 7).read
        = some 5) ∧
    ((EventLoop.new.add_write_interest 3 5).add_write_interest 3 7
        = EventLoop.new.add_write_interest 3 5 ∧
      mapFind 3 ((EventLoop.new.add_write_interest 3 5).add_write_interest 3 7).write
        = some 5) :=
  ⟨(c2_add_interest_first_wins EventLoop.new 3 5 7).2.1 (by decide),
   (c2_add_interest_first_wins EventLoop.new 3 5 7).2.2.2 (by decide)⟩

/-- C5: a wakeup whose TaskId is absent from the wait queue is silently
skipped: it raises no error, steps no task, and leaves the whole state
(wait queue, both interest registries, counter, run queue) exactly as it
was. -/
theorem c5_stale_wakeup_noop (l : EventLoop) (wk : Wakeup)
    (h : mapContains wk.index l.wait_queue = false) :
    l.drainStep wk = (l, none) :=
  drainStep_stale h

/-- C5 witness: a stale wakeup for TaskId 0 against a state holding only
task 1 changes nothing. -/
theorem c5_stale_wakeup_noop_witness :
    EventLoop.drainStep
        { read := [(5, 1)], write := [], counter := 2,
          wait_queue := [(1, ⟨[([], PollRes.pending)]⟩)], run_queue := [] }
        ⟨0, 0⟩
      = ({ read := [(5, 1)], write := [], counter := 2,
           wait_queue := [(1, ⟨[([], PollRes.pending)]⟩)], run_queue := [] }, none) :=
  c5_stale_wakeup_noop
    { read := [(5, 1)], write := [], counter := 2,
      wait_queue := [(1, ⟨[([], PollRes.pending)]⟩)], run_queue := [] }
    ⟨0, 0⟩ (by decide)

/-- C8: signalling readiness leaves the interest registries unchanged:
the wake phase only appends wakeups to the run queue; both registries
(and the wait queue) hold exactly the same entries afterwards. -/
theorem c8_wake_phase_preserves_registries (l : EventLoop) (rr wr : List Fd) :
    (l.wakePhase rr wr).read = l.read ∧
    (l.wakePhase rr wr).write = l.write ∧
    (l.wakePhase rr wr).wait_queue = l.wait_queue ∧
    ∃ extra, (l.wakePhase rr wr).run_queue = l.run_queue ++ extra := by
  obtain ⟨h1, h2, h3, -, he⟩ := wakePhase_frame l rr wr
  exact ⟨h1, h2, h3, he⟩

/-- C10: the four interest operations are direction-independent at the
registry interface: each touches at most its own registry and leaves the
other direction's registry, the wait queue, the run queue and the task
counter unchanged. -/
theorem c10_interest_ops_frame (l : EventLoop) (fd : Fd) (w : Waker) :
    ((l.add_read_interest fd w).write = l.write ∧
     (l.add_read_interest fd w).wait_queue = l.wait_queue ∧
     (l.add_read_interest fd w).run_queue = l.run_queue ∧
     (l.add_read_interest fd w).counter = l.counter) ∧
    ((l.remove_read_interest fd).write = l.write ∧
     (l.remove_read_interest fd).wait_queue = l.wait_queue ∧
     (l.remove_read_interest fd).run_queue = l.run_queue ∧
     (l.remove_read_interest fd).counter = l.counter) ∧
    ((l.add_write_interest fd w).read = l.read ∧
     (l.add_write_interest fd w).wait_queue = l.wait_queue ∧
     (l.add_write_interest fd w).run_queue = l.run_queue ∧
     (l.add_write_interest fd w).counter = l.counter) ∧
    ((l.remove_write_interest fd).read = l.read ∧
     (l.remove_write_interest fd).wait_queue = l.wait_queue ∧
     (l.remove_write_interest fd).run_queue = l.run_queue ∧
     (l.remove_write_interest fd).counter = l.counter) := by
  refine ⟨⟨?_, ?_, ?_, ?_⟩, ⟨rfl, rfl, rfl, rfl⟩, ⟨?_, ?_, ?_, ?_⟩,
    ⟨rfl, rfl, rfl, rfl⟩⟩ <;>
  · simp only [EventLoop.add_read_interest, EventLoop.add_write_interest]
    split <;> rfl

/-- C3 counterexample: when `select` reports it was interrupted (returns
`-1` with `EINTR`), the loop still panics — the code never inspects the
error kind — contradicting the claim that interruption does not abort. -/
theorem c3_interrupted_select_panics :
    EventLoop.new.iterate (SelectResult.err true) = IterResult.panicked "select()" :=
  rfl

/-- C3 (amended): any error from the `select` call (return value `-1`),
interruption included, is fatal and panics the loop; a non-error outcome
never panics — the iteration then either returns or continues. -/
theorem c3_select_error_fatal (l : EventLoop) (interrupted : Bool) (rr wr : List Fd) :
    l.iterate (SelectResult.err interrupted) = IterResult.panicked "select()" ∧
    ∃ l', l.iterate (SelectResult.ok rr wr) = IterResult.finished l' ∨
      l.iterate (SelectResult.ok rr wr) = IterResult.next l' := by
  refine ⟨rfl, ?_⟩
  simp only [EventLoop.iterate]
  by_cases h : ((EventLoop.drain (l.wakePhase rr wr)).1).wait_queue.isEmpty
  · exact ⟨_, Or.inl (by rw [if_pos h])⟩
  · exact ⟨_, Or.inr (by rw [if_neg h])⟩

/-- C4 counterexample: a root computation that completes synchronously on
its first step still triggers one reactor iteration: `run` does not
return before a `select` outcome is consumed, and returns after consuming
exactly one (one blocking poll occurs). -/
theorem c4_one_select_before_return :
    run ⟨[([], PollRes.ready)]⟩ [] =
      (RunOutcome.pendingInput ⟨[], [], 1, [], []⟩, 0) ∧
    run ⟨[([], PollRes.ready)]⟩ [SelectResult.ok [] []] =
      (RunOutcome.done ⟨[], [], 1, [], []⟩, 1) :=
  ⟨rfl, rfl⟩

/-- C4 (amended): a computation whose first step returns `Complete` is
never inserted into the wait queue, and running it as the root of `run`
returns after the first loop iteration — which still performs one
(blocking) `select` poll before the emptiness check — with the wait queue
empty throughout. -/
theorem c4_fast_path (l : EventLoop) (f : Task) (rr wr : List Fd)
    (rest : List SelectResult) :
    ((f.poll l.counter).1 = PollRes.ready →
      (l.do_spawn f).wait_queue = l.wait_queue) ∧
    ((f.poll 0).1 = PollRes.ready →
      ∃ lfin, run f (SelectResult.ok rr wr :: rest) = (RunOutcome.done lfin, 1) ∧
        lfin.wait_queue = []) := by
  have hspawn : ∀ (la : EventLoop), (f.poll la.counter).1 = PollRes.ready →
      (la.do_spawn f).wait_queue = la.wait_queue := by
    intro la hr
    simp only [EventLoop.do_spawn, EventLoop.next_task, hr]
    rw [applyRActions_wait_queue]
  refine ⟨hspawn l, fun hr0 => ?_⟩
  have hwq : (EventLoop.new.do_spawn f).wait_queue = [] := hspawn EventLoop.new hr0
  obtain ⟨-, -, hwq2, -, -⟩ := wakePhase_frame (EventLoop.new.do_spawn f) rr wr
  have hdrain :
      (EventLoop.drain ((EventLoop.new.do_spawn f).wakePhase rr wr)).1.wait_queue = [] :=
    drainFuel_wait_nil _ _ (hwq2.trans hwq)
  have hiter : (EventLoop.new.do_spawn f).iterate (SelectResult.ok rr wr) =
      IterResult.finished
        (EventLoop.drain ((EventLoop.new.do_spawn f).wakePhase rr wr)).1 := by
    simp only [EventLoop.iterate, hdrain, List.isEmpty_nil, if_true]
  refine ⟨(EventLoop.drain ((EventLoop.new.do_spawn f).wakePhase rr wr)).1, ?_, hdrain⟩
  show EventLoop.runAux (EventLoop.new.do_spawn f) (SelectResult.ok rr wr :: rest) = _
  simp only [EventLoop.runAux, hiter]

/-- C4 witness: concrete instance of the fast path for a task completing
on its first poll. -/
theorem c4_fast_path_witness :
    (EventLoop.new.do_spawn ⟨[([], PollRes.ready)]⟩).wait_queue
        = EventLoop.new.wait_queue ∧
    ∃ lfin, run ⟨[([], PollRes.ready)]⟩ [SelectResult.ok [] []]
        = (RunOutcome.done lfin, 1) ∧ lfin.wait_queue = [] :=
  ⟨(c4_fast_path EventLoop.new ⟨[([], PollRes.ready)]⟩ [] [] []).1 rfl,
   (c4_fast_path EventLoop.new ⟨[([], PollRes.ready)]⟩ [] [] []).2 rfl⟩

/-- C7: `run` returns exactly when the wait queue is empty, and the
emptiness check that decides return is made only on the state resulting
from a full drain of the run queue: a loop iteration returns `l'` iff
`l'` is the post-drain state and its wait queue is empty. -/
theorem c7_returns_iff_wait_queue_empty (l : EventLoop) (rr wr : List Fd)
    (l' : EventLoop) :
    l.iterate (SelectResult.ok rr wr) = IterResult.finished l' ↔
      (l' = (EventLoop.drain (l.wakePhase rr wr)).1 ∧ l'.wait_queue = []) := by
  simp only [EventLoop.iterate]
  by_cases h : ((EventLoop.drain (l.wakePhase rr wr)).1).wait_queue.isEmpty
  · rw [if_pos h]
    constructor
    · intro he
      injection he with he
      subst he
      exact ⟨rfl, List.isEmpty_iff.1 h⟩
    · rintro ⟨rfl, -⟩
      rfl
  · rw [if_neg h]
    constructor
    · intro he
      exact absurd he (by simp)
    · rintro ⟨rfl, hl'⟩
      exact absurd (List.isEmpty_iff.2 hl') h

/-- C1 counterexample: with two wakeups for task 0 already queued and a
task whose polls keep returning `Pending`, one drain pass steps task 0
twice — the second wakeup finds the re-inserted task, so it is not
treated as stale. -/
theorem c1_two_steps_of_same_task :
    (EventLoop.drain
      { read := [], write := [], counter := 1,
        wait_queue := [(0, ⟨[([], PollRes.pending), ([], PollRes.pending)]⟩)],
        run_queue := [⟨0, 0⟩, ⟨0, 0⟩] }).2 = [0, 0] :=
  rfl

/-- C1 (amended): a duplicate wakeup is treated as stale exactly when its
task is no longer in the wait queue.  Once a task id is absent from the
wait queue — in particular after a step that completed the task, which is
dropped and not re-inserted — no remaining wakeup of the drain pass steps
it, and it stays absent.  (A task whose step returns `Pending` is
re-inserted and a further wakeup in the same pass does step it again; see
the counterexample.) -/
theorem c1_no_step_after_removal (l : EventLoop) (i : TaskId)
    (h : mapContains i l.wait_queue = false) :
    i ∉ (EventLoop.drain l).2 ∧
      mapContains i (EventLoop.drain l).1.wait_queue = false := by
  obtain ⟨h1, h2⟩ := drain_absent h
  exact ⟨h2, h1⟩

/-- C1 witness: draining two wakeups for the absent task 0 steps nothing
for it. -/
theorem c1_no_step_after_removal_witness :
    0 ∉ (EventLoop.drain
      { read := [], write := [], counter := 2,
        wait_queue := [(1, ⟨[([], PollRes.pending)]⟩)],
        run_queue := [⟨0, 0⟩, ⟨0, 0⟩] }).2 ∧
    mapContains 0 (EventLoop.drain
      { read := [], write := [], counter := 2,
        wait_queue := [(1, ⟨[([], PollRes.pending)]⟩)],
        run_queue := [⟨0, 0⟩, ⟨0, 0⟩] }).1.wait_queue = false :=
  c1_no_step_after_removal
    { read := [], write := [], counter := 2,
      wait_queue := [(1, ⟨[([], PollRes.pending)]⟩)],
      run_queue := [⟨0, 0⟩, ⟨0, 0⟩] } 0 (by decide)

/-- C6: the run queue is FIFO: three wakeups at the front of the run
queue, for pairwise distinct task ids all present in the wait queue, are
consumed in queue order and their tasks stepped in exactly that order
within the drain pass. -/
theorem c6_fifo_drain (l : EventLoop) (wa wb wc : Wakeup) (rest : List Wakeup)
    (hq : l.run_queue = wa :: wb :: wc :: rest)
    (hab : wa.index ≠ wb.index) (hac : wa.index ≠ wc.index)
    (hbc : wb.index ≠ wc.index)
    (ha : mapContains wa.index l.wait_queue = true)
    (hb : mapContains wb.index l.wait_queue = true)
    (hc : mapContains wc.index l.wait_queue = true) :
    (EventLoop.drain l).2.take 3 = [wa.index, wb.index, wc.index] := by
  have h1 := drain_run_queue_cons hq
  obtain ⟨e1, he1⟩ := drainStep_run_queue { l with run_queue := wb :: wc :: rest } wa
  have hstep1 : (EventLoop.drainStep { l with run_queue := wb :: wc :: rest } wa).2
      = some wa.index := drainStep_stepped ha
  set s1 := (EventLoop.drainStep { l with run_queue := wb :: wc :: rest } wa).1 with hs1
  have hq1 : s1.run_queue = wb :: (wc :: (rest ++ e1)) := by rw [he1]; rfl
  have hb1 : mapContains wb.index s1.wait_queue = true := by
    rw [hs1, drainStep_contains_ne (Ne.symm hab)]
    exact hb
  have hc1 : mapContains wc.index s1.wait_queue = true := by
    rw [hs1, drainStep_contains_ne (Ne.symm hac)]
    exact hc
  have h2 := drain_run_queue_cons hq1
  obtain ⟨e2, he2⟩ := drainStep_run_queue { s1 with run_queue := wc :: (rest ++ e1) } wb
  have hstep2 : (EventLoop.drainStep { s1 with run_queue := wc :: (rest ++ e1) } wb).2
      = some wb.index := drainStep_stepped hb1
  set s2 := (EventLoop.drainStep { s1 with run_queue := wc :: (rest ++ e1) } wb).1 with hs2
  have hq2 : s2.run_queue = wc :: ((rest ++ e1) ++ e2) := by rw [he2]; rfl
  have hc2 : mapContains wc.index s2.wait_queue = true := by
    rw [hs2, drainStep_contains_ne (Ne.symm hbc)]
    exact hc1
  have h3 := drain_run_queue_cons hq2
  have hstep3 : (EventLoop.drainStep { s2 with run_queue := (rest ++ e1) ++ e2 } wc).2
      = some wc.index := drainStep_stepped hc2
  rw [h1, hstep1, h2, hstep2, h3, hstep3]
  simp

/-- C6 witness: three distinct ready tasks woken in order 0, 1, 2 are
stepped in that order. -/
theorem c6_fifo_drain_witness :
    (EventLoop.drain
      { read := [], write := [], counter := 3,
        wait_queue := [(0, ⟨[([], PollRes.ready)]⟩), (1, ⟨[([], PollRes.ready)]⟩),
          (2, ⟨[([], PollRes.ready)]⟩)],
        run_queue := [⟨0, 0⟩, ⟨1, 1⟩, ⟨2, 2⟩] }).2.take 3 = [0, 1, 2] :=
  c6_fifo_drain
    { read := [], write := [], counter := 3,
      wait_queue := [(0, ⟨[([], PollRes.ready)]⟩), (1, ⟨[([], PollRes.ready)]⟩),
        (2, ⟨[([], PollRes.ready)]⟩)],
      run_queue := [⟨0, 0⟩, ⟨1, 1⟩, ⟨2, 2⟩] }
    ⟨0, 0⟩ ⟨1, 1⟩ ⟨2, 2⟩ [] rfl (by decide) (by decide) (by decide)
    (by decide) (by decide) (by decide)

/-- C9 counterexample: the task counter is a `usize` and wraps at
`usize::MAX`.  With the counter at `usize::MAX` and task 0 still live in
the wait queue, the allocation at `usize::MAX` wraps the counter to 0,
so the next `next_task` call returns TaskId 0 — not strictly greater
than the previously allocated id, and equal to the TaskId of a task
currently in the wait queue. -/
theorem c9_counter_wraps :
    ((({ read := [], write := [], counter := usizeSize - 1,
         wait_queue := [(0, ⟨[]⟩)],
         run_queue := [] } : EventLoop).next_task).2.next_task).1.1 = 0 ∧
    ((({ read := [], write := [], counter := usizeSize - 1,
         wait_queue := [(0, ⟨[]⟩)],
         run_queue := [] } : EventLoop).next_task).2.next_task).1.1
      < (({ read := [], write := [], counter := usizeSize - 1,
            wait_queue := [(0, ⟨[]⟩)],
            run_queue := [] } : EventLoop).next_task).1.1 ∧
    mapContains
      ((({ read := [], write := [], counter := usizeSize - 1,
           wait_queue := [(0, ⟨[]⟩)],
           run_queue := [] } : EventLoop).next_task).2.next_task).1.1
      (({ read := [], write := [], counter := usizeSize - 1,
          wait_queue := [(0, ⟨[]⟩)],
          run_queue := [] } : EventLoop).next_task).2.wait_queue = true := by
  refine ⟨?_, ?_, ?_⟩ <;> decide

/-- C9 (amended): `next_task` hands out the current counter value and
increments the `usize` counter, wrapping at `usize::MAX`; as long as no
wrap occurs (`counter + 1 < usizeSize`, i.e. fewer than `usize::MAX`
allocations — debug builds panic at the same point), successive
allocations are strictly increasing, and under the invariant that every
wait-queue id is below the counter — which holds initially and is
preserved by readiness signalling, draining and (while no wrap occurs)
spawning — a freshly allocated TaskId is never the id of any task
currently in the wait queue.  At the wrap the guarantee fails (see the
counterexample). -/
theorem c9_task_ids (l : EventLoop) (f : Task) (rr wr : List Fd) :
    (l.next_task).1.1 = l.counter ∧
    (l.next_task).2.counter = (l.counter + 1) % usizeSize ∧
    (l.counter + 1 < usizeSize → (l.next_task).2.counter = l.counter + 1) ∧
    (wqBounded l → mapContains (l.next_task).1.1 l.wait_queue = false) ∧
    wqBounded EventLoop.new ∧
    (l.counter + 1 < usizeSize → wqBounded l → wqBounded (l.do_spawn f)) ∧
    (wqBounded l → wqBounded (l.wakePhase rr wr)) ∧
    (wqBounded l → wqBounded (EventLoop.drain l).1) := by
  refine ⟨rfl, rfl, fun hnw => Nat.mod_eq_of_lt hnw, fun h => ?_, wqBounded_new,
    fun hnw h => wqBounded_do_spawn f hnw h,
    fun h => wqBounded_wakePhase rr wr h, fun h => wqBounded_drainFuel _ _ h⟩
  by_contra hcon
  simp only [Bool.not_eq_false] at hcon
  obtain ⟨v, hv⟩ := (mapContains_iff_exists _ _).1 hcon
  exact absurd (h (l.counter, v) hv) (lt_irrefl _)

/-- C9 witness: in a bounded state with counter 3 (far from the wrap)
and live ids 0 and 2, the fresh id (3) is not in the wait queue, and the
invariant survives a spawn and a drain. -/
theorem c9_task_ids_witness :
    mapContains
        (({ read := [], write := [], counter := 3,
            wait_queue := [(0, ⟨[]⟩), (2, ⟨[]⟩)],
            run_queue := [⟨0, 0⟩] } : EventLoop).next_task).1.1
        ({ read := [], write := [], counter := 3,
           wait_queue := [(0, ⟨[]⟩), (2, ⟨[]⟩)],
           run_queue := [⟨0, 0⟩] } : EventLoop).wait_queue = false ∧
    wqBounded
      (({ read := [], write := [], counter := 3,
          wait_queue := [(0, ⟨[]⟩), (2, ⟨[]⟩)],
          run_queue := [⟨0, 0⟩] } : EventLoop).do_spawn ⟨[]⟩) ∧
    wqBounded
      (EventLoop.drain
        { read := [], write := [], counter := 3,
          wait_queue := [(0, ⟨[]⟩), (2, ⟨[]⟩)],
          run_queue := [⟨0, 0⟩] }).1 :=
  ⟨(c9_task_ids
      { read := [], write := [], counter := 3,
        wait_queue := [(0, ⟨[]⟩), (2, ⟨[]⟩)], run_queue := [⟨0, 0⟩] }
      ⟨[]⟩ [] []).2.2.2.1 (by decide),
   (c9_task_ids
      { read := [], write := [], counter := 3,
        wait_queue := [(0, ⟨[]⟩), (2, ⟨[]⟩)], run_queue := [⟨0, 0⟩] }
      ⟨[]⟩ [] []).2.2.2.2.2.1 (by decide) (by decide),
   (c9_task_ids
      { read := [], write := [], counter := 3,
        wait_queue := [(0, ⟨[]⟩), (2, ⟨[]⟩)], run_queue := [⟨0, 0⟩] }
      ⟨[]⟩ [] []).2.2.2.2.2.2.2 (by decide)⟩

end Fahrenheit
